import Mathlib

/-!
Verification of the campaign progress/resume engine of the
vSendGrid-Client repository (source file `src/mail.py`).

The Python code is shallowly embedded below.  Conventions:

* Python strings are Lean `String`s; `str.lower()` is modelled char-wise
  by `pyLower` and `str.strip()` by `pyStrip` (the source only ever
  applies them to ASCII e-mail addresses and subjects).
* The progress ledger (`self.progress_data`, a JSON dictionary) is the
  structure `ProgressData`; JSON keys that the code accesses with
  presence checks or `.get` defaults are `Option` fields.  Items of the
  `sent_emails` list may be dictionaries or plain strings in the code
  (`isinstance(item, dict)`), hence the two-constructor `SentItem`.
* File/IO effects are factored out as explicit inputs: the per-encoding
  decode results of the CSV file are a `List (Option (List String))`
  (one entry per encoding from `encodings_to_try`, `none` when that
  encoding raises or no e-mail column is found, `some cells` giving the
  e-mail-column cell of each row), the persisted-state read is a
  `ReadOutcome`, `random.sample` is driven by an arbitrary index oracle
  `rand : Nat → Nat`, `datetime.now()` is a `now : String` parameter,
  and the SendGrid gateway response is a `GatewayOutcome`.
-/

namespace VSendGrid

/-- Whitespace stripped by Python's `str.strip()`. -/
def isSpaceChar (c : Char) : Bool :=
  c == ' ' || c == '\t' || c == '\n' || c == '\r' || c == '\x0b' || c == '\x0c'

/-- Model of Python `str.strip()`: drop whitespace from both ends. -/
def pyStrip (s : String) : String :=
  String.mk (((s.data.dropWhile isSpaceChar).reverse.dropWhile isSpaceChar).reverse)

/-- Model of Python `str.lower()` (char-wise ASCII lowering). -/
def pyLower (s : String) : String :=
  String.mk (s.data.map Char.toLower)

/-! ### `SendGridEmailer.validate_email` (mail.py lines 75-78)

The regex is `^[a-zA-Z0-9._%+-]+@[a-zA-Z0-9.-]+\.[a-zA-Z]{2,}$`.
Neither character class contains `@`, so a match decomposes the string
at its unique `@`; the `[a-zA-Z]{2,}$` tail contains no dot, so the
mandatory `\.` of the domain is the last dot of the string. -/

/-- Characters allowed in the local part: `[a-zA-Z0-9._%+-]`. -/
def isLocalChar (c : Char) : Bool :=
  c.isAlphanum || c == '.' || c == '_' || c == '%' || c == '+' || c == '-'

/-- Characters allowed before the final dot of the domain: `[a-zA-Z0-9.-]`. -/
def isDomainChar (c : Char) : Bool :=
  c.isAlphanum || c == '.' || c == '-'

/-- Domain side of the regex: `[a-zA-Z0-9.-]+\.[a-zA-Z]{2,}$`, matched by
splitting at the last dot. -/
def validDomain (domain : List Char) : Bool :=
  let r := domain.reverse
  let tldR := r.takeWhile (fun c => c ≠ '.')
  match r.drop tldR.length with
  | '.' :: bodyR =>
      !bodyR.isEmpty && bodyR.all isDomainChar &&
        decide (2 ≤ tldR.length) && tldR.all Char.isAlpha
  | _ => false

/-- `validate_email`: anchored match of the regex above, split at the
first (and only possible) `@`. -/
def validateEmail (s : String) : Bool :=
  let cs := s.data
  let localPart := cs.takeWhile (fun c => c ≠ '@')
  match cs.dropWhile (fun c => c ≠ '@') with
  | '@' :: domain => !localPart.isEmpty && localPart.all isLocalChar && validDomain domain
  | _ => false

/-! ### `EmailCampaignManager.load_email_list` (mail.py lines 223-266) -/

/-- Row filter applied to a stripped cell value (mail.py lines 251-252):
non-empty, contains `@` and `.`, and `split('@')` has exactly two parts,
i.e. exactly one `@`. -/
def validCell (v : String) : Bool :=
  !(v == "") && v.data.contains '@' && v.data.contains '.' && v.data.count '@' == 1

/-- The per-row loop body (mail.py lines 249-253): strip each cell of the
e-mail column, keep it lower-cased when it passes `validCell`. -/
def extractValidEmails (cells : List String) : List String :=
  cells.filterMap (fun cell =>
    let v := pyStrip cell
    if validCell v then some (pyLower v) else none)

/-- Helper for `dedupFirst`: drop elements already seen. -/
def dedupFirstAux (seen : List String) : List String → List String
  | [] => []
  | x :: xs => if x ∈ seen then dedupFirstAux seen xs else x :: dedupFirstAux (x :: seen) xs

/-- Model of `list(dict.fromkeys(emails))` (mail.py line 262): keep the
first occurrence of each element, preserving order. -/
def dedupFirst (l : List String) : List String :=
  dedupFirstAux [] l

/-- Reference first-seen deduplication, used to state the order
guarantee: the head of the input is kept and all its later duplicates
are erased before recursing, so the output lists each distinct element
of the input exactly once, ordered by first occurrence.  `dedupFirst`
is proved equal to it. -/
def firstSeenDedup : List String → List String
  | [] => []
  | x :: xs => x :: firstSeenDedup (xs.filter (fun y => !(y == x)))
termination_by l => l.length
decreasing_by
  simp_wf
  have := List.length_filter_le (fun y => !(y == x)) xs
  omega

/-- `load_email_list`: the `for encoding in encodings_to_try` loop
accumulates valid rows of every encoding attempt that parses (there is
no break after a successful attempt); a failed attempt (`continue`)
contributes nothing.  If nothing was collected the function returns `[]`
(mail.py lines 259-261), otherwise the deduplicated list. -/
def loadEmailList (decoded : List (Option (List String))) : List String :=
  let emails := decoded.foldl (fun acc d =>
    match d with
    | none => acc
    | some cells => acc ++ extractValidEmails cells) []
  if emails.isEmpty then [] else dedupFirst emails

/-- Modelled from the spec: "Must try multiple text encodings in a fixed
preference order and use the first one that parses successfully".  This
spec-side loader uses only the first successful encoding attempt; it
exists to be compared with `loadEmailList`, which embeds the source. -/
def specLoadFirstOnly (decoded : List (Option (List String))) : List String :=
  match decoded.findSome? id with
  | none => []
  | some cells => dedupFirst (extractValidEmails cells)

/-! ### The progress ledger (mail.py lines 202-221, 284-309) -/

/-- One send-attempt record, as appended by `mark_email_sent`
(mail.py lines 285-290). -/
structure EmailRecord where
  email : String
  timestamp : String
  success : Bool
  error : String
deriving DecidableEq, Repr

/-- An item of the persisted `sent_emails` list: the code accepts both
dictionaries and plain strings (`isinstance(item, dict)` branches at
mail.py lines 271-274 and 294-298). -/
inductive SentItem where
  | fromDict (r : EmailRecord)
  | fromStr (s : String)
deriving DecidableEq, Repr

/-- The address the code extracts from an item: `item.get("email", "")`
for a dictionary, `str(item)` for a plain string. -/
def SentItem.email : SentItem → String
  | .fromDict r => r.email
  | .fromStr s => s

/-- The `sum(1 for item ... if isinstance(item, dict) and item.get("success", False))`
predicate of mail.py lines 304-305. -/
def isSuccessItem : SentItem → Bool
  | .fromDict r => r.success
  | .fromStr _ => false

/-- The `sum(1 for item ... if isinstance(item, dict) and not item.get("success", True))`
predicate of mail.py lines 306-307. -/
def isFailedItem : SentItem → Bool
  | .fromDict r => !r.success
  | .fromStr _ => false

/-- Whether an item is a dictionary record (`isinstance(item, dict)`). -/
def isDictItem : SentItem → Bool
  | .fromDict _ => true
  | .fromStr _ => false

/-- The `campaign_stats` dictionary.  `successful`/`failed` are absent in
a fresh ledger and only created by `mark_email_sent`; readers use
`.get(..., 0)` defaults. -/
structure CampaignStats where
  total_sent : Nat
  successful : Option Nat
  failed : Option Nat
  last_run : Option String
deriving DecidableEq, Repr

/-- The ledger (`self.progress_data`).  Both top-level keys may be absent
in hand-edited state; the code guards each access. -/
structure ProgressData where
  sent_emails : Option (List SentItem)
  campaign_stats : Option CampaignStats
deriving DecidableEq, Repr

/-- The fresh empty ledger produced by `load_progress`:
`{"sent_emails": [], "campaign_stats": {"total_sent": 0, "last_run": None}}`. -/
def freshProgress : ProgressData :=
  ⟨some [], some ⟨0, none, none, none⟩⟩

/-- The attempts collection: `self.progress_data.get("sent_emails", [])`. -/
def ledgerRecords (p : ProgressData) : List SentItem :=
  p.sent_emails.getD []

/-- The `total_sent` counter as read with a 0 default for absent state. -/
def statsTotalSent (p : ProgressData) : Nat :=
  match p.campaign_stats with
  | some s => s.total_sent
  | none => 0

/-- The `successful` counter as read by `get_campaign_stats`
(`stats.get("successful", 0)`). -/
def statsSuccessful (p : ProgressData) : Nat :=
  match p.campaign_stats with
  | some s => s.successful.getD 0
  | none => 0

/-- The `failed` counter as read by `get_campaign_stats`
(`stats.get("failed", 0)`). -/
def statsFailed (p : ProgressData) : Nat :=
  match p.campaign_stats with
  | some s => s.failed.getD 0
  | none => 0

/-- Outcome of reading the persisted progress file: the file is absent,
or reading/parsing raises (corrupt), or it parses to a ledger value. -/
inductive ReadOutcome where
  | absent
  | corrupt
  | ok (d : ProgressData)
deriving DecidableEq, Repr

/-- `load_progress` (mail.py lines 202-214): absent file and any
exception both yield the fresh empty ledger; a successful parse is
returned as-is. -/
def loadProgress : ReadOutcome → ProgressData
  | .absent => freshProgress
  | .corrupt => freshProgress
  | .ok d => d

/-- `mark_email_sent` (mail.py lines 284-309).  Appends a record when the
exact address string is not among the existing items' addresses, then
recomputes `total_sent`, `successful` and `failed` from the full list. -/
def markEmailSent (now : String) (email : String) (success : Bool)
    (errorMessage : String) (p : ProgressData) : ProgressData :=
  let emailRecord : EmailRecord := ⟨email, now, success, errorMessage⟩
  let sent0 := p.sent_emails.getD []
  let existingEmails := sent0.map SentItem.email
  let sent1 := if email ∈ existingEmails then sent0
               else sent0 ++ [SentItem.fromDict emailRecord]
  let stats0 := p.campaign_stats.getD ⟨0, some 0, some 0, none⟩
  let successful := sent1.countP isSuccessItem
  let failed := sent1.countP isFailedItem
  ⟨some sent1, some ⟨sent1.length, some successful, some failed, stats0.last_run⟩⟩

/-- One `mark_email_sent` call (its timestamp made explicit). -/
structure MarkCall where
  now : String
  email : String
  success : Bool
  error : String
deriving DecidableEq, Repr

/-- A finite sequence of `mark_email_sent` calls applied in order. -/
def applyMarks (calls : List MarkCall) (p : ProgressData) : ProgressData :=
  calls.foldl (fun q c => markEmailSent c.now c.email c.success c.error q) p

/-! ### `get_unsent_emails` (mail.py lines 267-283) -/

/-- The `sent_email_addresses` set: lower-cased addresses of the ledger
items, skipping empty extracted addresses (`if email:`). -/
def sentEmailAddresses (p : ProgressData) : List String :=
  (p.sent_emails.getD []).filterMap (fun it =>
    if it.email == "" then none else some (pyLower it.email))

/-- The `unsent_emails` list comprehension (mail.py line 277). -/
def unsentEmails (decoded : List (Option (List String))) (p : ProgressData) : List String :=
  (loadEmailList decoded).filter (fun e => !((sentEmailAddresses p).contains (pyLower e)))

/-- Model of `random.sample(pool, k)` driven by an index oracle: at each
step pick position `rand step % |pool|`, emit it and remove it.  Any
without-replacement selection corresponds to some oracle. -/
def sampleAux (rand : Nat → Nat) : Nat → List String → Nat → List String
  | 0, _, _ => []
  | _ + 1, [], _ => []
  | k + 1, x :: xs, step =>
      let pool := x :: xs
      let i := rand step % pool.length
      pool.getD i "" :: sampleAux rand k (pool.eraseIdx i) (step + 1)

/-- `get_unsent_emails`: compute the unsent list; if empty return `[]`,
otherwise sample `min(limit, len(unsent))` elements without
replacement. -/
def getUnsentEmails (rand : Nat → Nat) (limit : Nat)
    (decoded : List (Option (List String))) (p : ProgressData) : List String :=
  let unsent := unsentEmails decoded p
  if unsent.isEmpty then [] else sampleAux rand (min limit unsent.length) unsent 0

/-! ### Campaign driver `run_email_campaign` (mail.py lines 323-378) -/

/-- How a run ends before (or at) the point sends start: the terminal
"Campaign complete!" report, the "No emails to send!" report, emailer
construction failure, or a batch send to the given targets (one
`send_campaign_email` gateway invocation per target). -/
inductive RunReport where
  | complete
  | noEmails
  | initError
  | batch (targets : List String)
deriving DecidableEq, Repr

/-- `run_email_campaign` up to the choice of batch: `emails_remaining` is
the plain count difference `len(all_emails) - len(sent_emails)` (via
`get_campaign_stats`, mail.py lines 313-317), compared with 0; only then
is the unsent batch computed and the emailer constructed. -/
def runEmailCampaign (rand : Nat → Nat) (batchSize : Nat)
    (decoded : List (Option (List String))) (p : ProgressData)
    (apiKeyPresent : Bool) : RunReport :=
  let allEmails := loadEmailList decoded
  let sentCount := (p.sent_emails.getD []).length
  let emailsRemaining : Int := (allEmails.length : Int) - (sentCount : Int)
  if emailsRemaining == 0 then .complete
  else
    let targetEmails := getUnsentEmails rand batchSize decoded p
    if targetEmails.isEmpty then .noEmails
    else if !apiKeyPresent then .initError
    else .batch targetEmails

/-- Number of Send Gateway invocations a report entails: one per batch
target, none for the early returns. -/
def reportGatewayCalls : RunReport → Nat
  | .batch ts => ts.length
  | _ => 0

/-! ### `SendGridEmailer.send_email` (mail.py lines 79-134) -/

/-- Behaviour of the `self.sg.send(message)` call: a response with a
status code, or a raised exception carrying a message. -/
inductive GatewayOutcome where
  | ok (statusCode : Nat)
  | exn (message : String)
deriving DecidableEq, Repr

/-- The result dictionary of `send_email` (opaque response headers/body
omitted). -/
structure SendOutcome where
  success : Bool
  statusCode : Option Nat
  error : Option String
  message : String
deriving DecidableEq, Repr

/-- The `except Exception` branch (mail.py lines 128-134): every raised
error, including the local `ValueError`s, is returned as this
dictionary. -/
def exceptionResult (e : String) : SendOutcome :=
  ⟨false, none, some e, "Failed to send email due to an error"⟩

/-- `send_email`.  The second component records whether `self.sg.send`
was invoked.  The validation `raise ValueError` statements are modelled
by their `except`-branch results. -/
def sendEmail (gw : GatewayOutcome) (fromEmail : String) (toEmails : List String)
    (subject plainTextContent htmlContent fromName : String) : SendOutcome × Bool :=
  let _ := fromName
  if !(validateEmail fromEmail) then
    (exceptionResult ("Invalid sender email: " ++ fromEmail), false)
  else if toEmails.isEmpty then
    (exceptionResult "At least one recipient email is required", false)
  else
    match toEmails.find? (fun e => !(validateEmail e)) with
    | some bad => (exceptionResult ("Invalid recipient email: " ++ bad), false)
    | none =>
      if pyStrip subject == "" then
        (exceptionResult "Email subject cannot be empty", false)
      else if plainTextContent == "" && htmlContent == "" then
        (exceptionResult "Either plain text or HTML content is required", false)
      else
        match gw with
        | .exn msg => (exceptionResult msg, true)
        | .ok code =>
          if code == 200 || code == 201 || code == 202 then
            (⟨true, some code, none, "Email sent successfully"⟩, true)
          else
            (⟨false, some code, none,
              "Email sending failed with status code: " ++ toString code⟩, true)

/-- All pre-gateway validations of `send_email` in one predicate. -/
def sendValidationsPass (fromEmail : String) (toEmails : List String)
    (subject plainTextContent htmlContent : String) : Bool :=
  validateEmail fromEmail && !toEmails.isEmpty && toEmails.all validateEmail &&
    !(pyStrip subject == "") && !(plainTextContent == "" && htmlContent == "")

/-- The result of `self.sg.send` as `send_email` maps it (success iff the
status code is 200, 201 or 202; exceptions via the `except` branch). -/
def gatewayResult : GatewayOutcome → SendOutcome × Bool
  | .exn msg => (exceptionResult msg, true)
  | .ok code =>
    if code == 200 || code == 201 || code == 202 then
      (⟨true, some code, none, "Email sent successfully"⟩, true)
    else
      (⟨false, some code, none,
        "Email sending failed with status code: " ++ toString code⟩, true)

/-! ## Auxiliary lemmas -/

theorem pyLower_eq_empty_iff (s : String) : pyLower s = "" ↔ s = "" := by
  simp [pyLower, String.ext_iff]

theorem mem_dedupFirstAux {x : String} :
    ∀ {seen l : List String}, x ∈ dedupFirstAux seen l → x ∈ l := by
  intro seen l
  induction l generalizing seen with
  | nil => intro h; simp [dedupFirstAux] at h
  | cons y ys ih =>
    intro h
    by_cases hy : y ∈ seen
    · exact List.mem_cons_of_mem _ (ih (by simpa [dedupFirstAux, hy] using h))
    · rw [dedupFirstAux, if_neg hy] at h
      rcases List.mem_cons.mp h with h1 | h2
      · exact h1 ▸ List.mem_cons_self _ _
      · exact List.mem_cons_of_mem _ (ih h2)

theorem dedupFirstAux_not_mem_seen {x : String} :
    ∀ {seen l : List String}, x ∈ dedupFirstAux seen l → x ∉ seen := by
  intro seen l
  induction l generalizing seen with
  | nil => intro h; simp [dedupFirstAux] at h
  | cons y ys ih =>
    intro h
    by_cases hy : y ∈ seen
    · exact ih (by simpa [dedupFirstAux, hy] using h)
    · rw [dedupFirstAux, if_neg hy] at h
      rcases List.mem_cons.mp h with h1 | h2
      · exact h1 ▸ hy
      · intro hseen
        exact ih h2 (List.mem_cons_of_mem _ hseen)

theorem dedupFirstAux_nodup : ∀ (seen l : List String), (dedupFirstAux seen l).Nodup := by
  intro seen l
  induction l generalizing seen with
  | nil => simp [dedupFirstAux]
  | cons y ys ih =>
    by_cases hy : y ∈ seen
    · simpa [dedupFirstAux, hy] using ih seen
    · rw [dedupFirstAux, if_neg hy]
      refine List.nodup_cons.mpr ⟨?_, ih (y :: seen)⟩
      intro hmem
      exact dedupFirstAux_not_mem_seen hmem (List.mem_cons_self y seen)

theorem dedupFirst_nodup (l : List String) : (dedupFirst l).Nodup :=
  dedupFirstAux_nodup [] l

theorem mem_dedupFirst {x : String} {l : List String} (h : x ∈ dedupFirst l) : x ∈ l :=
  mem_dedupFirstAux h

theorem mem_dedupFirstAux_of_mem {x : String} :
    ∀ {seen l : List String}, x ∈ l → x ∉ seen → x ∈ dedupFirstAux seen l := by
  intro seen l
  induction l generalizing seen with
  | nil => intro h _; simp at h
  | cons y ys ih =>
    intro hmem hseen
    by_cases hy : y ∈ seen
    · rw [dedupFirstAux, if_pos hy]
      rcases List.mem_cons.mp hmem with h1 | h2
      · exact absurd (h1 ▸ hy) hseen
      · exact ih h2 hseen
    · rw [dedupFirstAux, if_neg hy]
      rcases List.mem_cons.mp hmem with h1 | h2
      · exact h1 ▸ List.mem_cons_self _ _
      · by_cases hxy : x = y
        · exact hxy ▸ List.mem_cons_self _ _
        · exact List.mem_cons_of_mem _ (ih h2 (by simp [List.mem_cons, hxy, hseen]))

theorem mem_dedupFirst_iff (x : String) (l : List String) :
    x ∈ dedupFirst l ↔ x ∈ l :=
  ⟨mem_dedupFirst, fun h => mem_dedupFirstAux_of_mem h (by simp)⟩

theorem dedupFirstAux_eq_firstSeenDedup :
    ∀ (l seen : List String),
      dedupFirstAux seen l = firstSeenDedup (l.filter (fun y => decide (y ∉ seen))) := by
  intro l
  induction l with
  | nil => intro seen; simp [dedupFirstAux, firstSeenDedup]
  | cons x xs ih =>
    intro seen
    rw [List.filter_cons]
    by_cases hx : x ∈ seen
    · rw [dedupFirstAux, if_pos hx, if_neg (by simp [hx])]
      exact ih seen
    · rw [dedupFirstAux, if_neg hx, if_pos (by simp [hx])]
      rw [firstSeenDedup]
      rw [ih (x :: seen), List.filter_filter]
      congr 2
      apply List.filter_congr
      intro y _
      by_cases h1 : y = x
      · simp [List.mem_cons, h1]
      · by_cases h2 : y ∈ seen
        · simp [List.mem_cons, h1, h2]
        · simp [List.mem_cons, h1, h2]

theorem dedupFirst_eq_firstSeenDedup (l : List String) :
    dedupFirst l = firstSeenDedup l := by
  rw [dedupFirst, dedupFirstAux_eq_firstSeenDedup l []]
  congr 1
  exact List.filter_eq_self.mpr (fun a _ => by simp)

theorem loadFold_eq_flatten :
    ∀ (decoded : List (Option (List String))) (acc : List String),
      decoded.foldl (fun acc d =>
        match d with
        | none => acc
        | some cells => acc ++ extractValidEmails cells) acc
        = acc ++ ((decoded.filterMap id).map extractValidEmails).flatten := by
  intro decoded
  induction decoded with
  | nil => intro acc; simp
  | cons d ds ih =>
    intro acc
    cases d with
    | none => simpa using ih acc
    | some cells => simp [ih, List.append_assoc]

theorem loadEmailList_eq_flatten (decoded : List (Option (List String))) :
    loadEmailList decoded =
      (if (((decoded.filterMap id).map extractValidEmails).flatten).isEmpty then []
       else dedupFirst (((decoded.filterMap id).map extractValidEmails).flatten)) := by
  simp only [loadEmailList]
  rw [loadFold_eq_flatten]
  simp

theorem loadEmailList_nodup (decoded : List (Option (List String))) :
    (loadEmailList decoded).Nodup := by
  simp only [loadEmailList]
  split
  · exact List.nodup_nil
  · exact dedupFirst_nodup _

theorem mem_loadEmailList {decoded : List (Option (List String))} {e : String}
    (h : e ∈ loadEmailList decoded) :
    ∃ cells, some cells ∈ decoded ∧
      ∃ c ∈ cells, validCell (pyStrip c) = true ∧ e = pyLower (pyStrip c) := by
  rw [loadEmailList_eq_flatten] at h
  split at h
  · simp at h
  · have h1 := mem_dedupFirst h
    rw [List.mem_flatten] at h1
    obtain ⟨l, hl, hel⟩ := h1
    rw [List.mem_map] at hl
    obtain ⟨cells, hcells, rfl⟩ := hl
    rw [List.mem_filterMap] at hcells
    obtain ⟨d, hd, hid⟩ := hcells
    simp only [extractValidEmails] at hel
    rw [List.mem_filterMap] at hel
    obtain ⟨c, hc, hcv⟩ := hel
    refine ⟨cells, by rwa [show d = some cells from hid] at hd, c, hc, ?_⟩
    by_cases hv : validCell (pyStrip c) = true
    · rw [if_pos hv] at hcv
      exact ⟨hv, (Option.some.injEq _ _ ▸ hcv).symm⟩
    · rw [if_neg hv] at hcv
      exact absurd hcv (by simp)

theorem loadEmailList_ne_empty {decoded : List (Option (List String))} {e : String}
    (h : e ∈ loadEmailList decoded) : e ≠ "" := by
  obtain ⟨cells, _, c, _, hv, he⟩ := mem_loadEmailList h
  intro h0
  rw [he] at h0
  rw [(pyLower_eq_empty_iff _).mp h0] at hv
  simp [validCell] at hv

theorem loadEmailList_eq_firstSeenDedup (decoded : List (Option (List String))) :
    loadEmailList decoded
      = firstSeenDedup (((decoded.filterMap id).map extractValidEmails).flatten) := by
  rw [loadEmailList_eq_flatten]
  split
  · rename_i h
    rw [List.isEmpty_iff.mp h]
    simp [firstSeenDedup]
  · exact dedupFirst_eq_firstSeenDedup _

theorem mem_loadEmailList_iff (decoded : List (Option (List String))) (e : String) :
    e ∈ loadEmailList decoded
      ↔ e ∈ ((decoded.filterMap id).map extractValidEmails).flatten := by
  rw [loadEmailList_eq_flatten]
  split
  · rename_i h
    simp [List.isEmpty_iff.mp h]
  · exact mem_dedupFirst_iff e _

theorem sampleAux_length (rand : Nat → Nat) :
    ∀ (k : Nat) (pool : List String) (step : Nat), k ≤ pool.length →
      (sampleAux rand k pool step).length = k := by
  intro k
  induction k with
  | zero => intro pool step _; rfl
  | succ n ih =>
    intro pool step h
    cases pool with
    | nil => simp at h
    | cons x xs =>
      simp only [sampleAux]
      have hpos : 0 < (x :: xs).length := by simp
      have hi : rand step % (x :: xs).length < (x :: xs).length := Nat.mod_lt _ hpos
      have hlen : ((x :: xs).eraseIdx (rand step % (x :: xs).length)).length
          = (x :: xs).length - 1 := by
        rw [List.length_eraseIdx, if_pos hi]
      have hrec := ih ((x :: xs).eraseIdx (rand step % (x :: xs).length)) (step + 1)
        (by rw [hlen]; simp only [List.length_cons] at h ⊢; omega)
      rw [List.length_cons, hrec]

theorem sampleAux_subset (rand : Nat → Nat) :
    ∀ (k : Nat) (pool : List String) (step : Nat) (e : String),
      e ∈ sampleAux rand k pool step → e ∈ pool := by
  intro k
  induction k with
  | zero => intro pool step e h; simp [sampleAux] at h
  | succ n ih =>
    intro pool step e h
    cases pool with
    | nil => simp [sampleAux] at h
    | cons x xs =>
      simp only [sampleAux] at h
      rcases List.mem_cons.mp h with h1 | h2
      · have hi : rand step % (x :: xs).length < (x :: xs).length :=
          Nat.mod_lt _ (by simp)
        rw [h1, List.getD_eq_getElem _ _ hi]
        exact List.getElem_mem hi
      · exact (List.eraseIdx_sublist (x :: xs) _).subset (ih _ _ _ h2)

theorem getElem_not_mem_eraseIdx :
    ∀ (l : List String) (i : Nat) (h : i < l.length), l.Nodup → l[i] ∉ l.eraseIdx i := by
  intro l
  induction l with
  | nil => intro i h; simp at h
  | cons x xs ih =>
    intro i h hnd
    rcases List.nodup_cons.mp hnd with ⟨hx, hxs⟩
    cases i with
    | zero => simpa using hx
    | succ n =>
      have hn : n < xs.length := by simpa using h
      simp only [List.eraseIdx_cons_succ, List.getElem_cons_succ]
      intro hmem
      rcases List.mem_cons.mp hmem with h1 | h2
      · exact hx (h1 ▸ List.getElem_mem hn)
      · exact ih n hn hxs h2

theorem sampleAux_nodup (rand : Nat → Nat) :
    ∀ (k : Nat) (pool : List String) (step : Nat), pool.Nodup →
      (sampleAux rand k pool step).Nodup := by
  intro k
  induction k with
  | zero => intro pool step _; simp [sampleAux]
  | succ n ih =>
    intro pool step hnd
    cases pool with
    | nil => simp [sampleAux]
    | cons x xs =>
      simp only [sampleAux]
      have hi : rand step % (x :: xs).length < (x :: xs).length :=
        Nat.mod_lt _ (by simp)
      refine List.nodup_cons.mpr
        ⟨?_, ih _ _ (((x :: xs).eraseIdx_sublist _).nodup hnd)⟩
      intro hmem
      have h2 := sampleAux_subset rand n _ _ _ hmem
      rw [List.getD_eq_getElem _ _ hi] at h2
      exact getElem_not_mem_eraseIdx _ _ hi hnd h2

theorem unsentEmails_nodup (decoded : List (Option (List String))) (p : ProgressData) :
    (unsentEmails decoded p).Nodup :=
  (loadEmailList_nodup decoded).filter _

theorem mem_of_subset_of_length_le {l₁ l₂ : List String}
    (hsub : ∀ e ∈ l₁, e ∈ l₂) (h₁ : l₁.Nodup) (h₂ : l₂.Nodup)
    (hlen : l₂.length ≤ l₁.length) : ∀ e ∈ l₂, e ∈ l₁ := by
  have hsubF : l₁.toFinset ⊆ l₂.toFinset := fun a ha =>
    List.mem_toFinset.mpr (hsub a (List.mem_toFinset.mp ha))
  have hcard : l₂.toFinset.card ≤ l₁.toFinset.card := by
    rw [List.toFinset_card_of_nodup h₁, List.toFinset_card_of_nodup h₂]
    exact hlen
  have heq := Finset.eq_of_subset_of_card_le hsubF hcard
  intro e he
  exact List.mem_toFinset.mp (heq ▸ List.mem_toFinset.mpr he)

theorem countP_success_add_failed {l : List SentItem}
    (h : ∀ it ∈ l, isDictItem it = true) :
    l.countP isSuccessItem + l.countP isFailedItem = l.length := by
  induction l with
  | nil => rfl
  | cons it its ih =>
    have hd := h it (List.mem_cons_self _ _)
    have ht := ih (fun x hx => h x (List.mem_cons_of_mem _ hx))
    cases it with
    | fromStr s => simp [isDictItem] at hd
    | fromDict r =>
      simp only [List.countP_cons, List.length_cons]
      cases hr : r.success with
      | true => simp [isSuccessItem, isFailedItem, hr]; omega
      | false => simp [isSuccessItem, isFailedItem, hr]; omega

theorem markEmailSent_ledgerRecords (now email : String) (success : Bool)
    (err : String) (p : ProgressData) :
    ledgerRecords (markEmailSent now email success err p) =
      (if email ∈ (ledgerRecords p).map SentItem.email then ledgerRecords p
       else ledgerRecords p ++ [SentItem.fromDict ⟨email, now, success, err⟩]) :=
  rfl

theorem markEmailSent_stats (now email : String) (success : Bool)
    (err : String) (p : ProgressData) :
    statsTotalSent (markEmailSent now email success err p)
        = (ledgerRecords (markEmailSent now email success err p)).length ∧
      statsSuccessful (markEmailSent now email success err p)
        = (ledgerRecords (markEmailSent now email success err p)).countP isSuccessItem ∧
      statsFailed (markEmailSent now email success err p)
        = (ledgerRecords (markEmailSent now email success err p)).countP isFailedItem :=
  ⟨rfl, rfl, rfl⟩

theorem markEmailSent_allDict (now email : String) (success : Bool)
    (err : String) (p : ProgressData)
    (h : ∀ it ∈ ledgerRecords p, isDictItem it = true) :
    ∀ it ∈ ledgerRecords (markEmailSent now email success err p), isDictItem it = true := by
  rw [markEmailSent_ledgerRecords]
  split
  · exact h
  · intro it hit
    rcases List.mem_append.mp hit with h1 | h2
    · exact h _ h1
    · rw [List.mem_singleton.mp h2]
      rfl

theorem applyMarks_invariant :
    ∀ (calls : List MarkCall) (p : ProgressData),
      (∀ it ∈ ledgerRecords p, isDictItem it = true) →
      (statsTotalSent p = (ledgerRecords p).length ∧
        statsSuccessful p + statsFailed p = statsTotalSent p) →
      ((∀ it ∈ ledgerRecords (applyMarks calls p), isDictItem it = true) ∧
        statsTotalSent (applyMarks calls p) = (ledgerRecords (applyMarks calls p)).length ∧
        statsSuccessful (applyMarks calls p) + statsFailed (applyMarks calls p)
          = statsTotalSent (applyMarks calls p)) := by
  intro calls
  induction calls with
  | nil => intro p h1 h2; exact ⟨h1, h2⟩
  | cons c cs ih =>
    intro p h1 _
    have hall := markEmailSent_allDict c.now c.email c.success c.error p h1
    obtain ⟨e1, e2, e3⟩ := markEmailSent_stats c.now c.email c.success c.error p
    have hstats : statsTotalSent (markEmailSent c.now c.email c.success c.error p)
        = (ledgerRecords (markEmailSent c.now c.email c.success c.error p)).length ∧
        statsSuccessful (markEmailSent c.now c.email c.success c.error p)
          + statsFailed (markEmailSent c.now c.email c.success c.error p)
          = statsTotalSent (markEmailSent c.now c.email c.success c.error p) := by
      refine ⟨e1, ?_⟩
      rw [e1, e2, e3]
      exact countP_success_add_failed hall
    exact ih _ hall hstats

theorem unsent_nil_of_covered {decoded : List (Option (List String))} {p : ProgressData}
    (hcov : ∀ e ∈ loadEmailList decoded,
      ∃ it ∈ ledgerRecords p, pyLower it.email = pyLower e) :
    unsentEmails decoded p = [] := by
  rw [unsentEmails, List.filter_eq_nil_iff]
  intro e he
  obtain ⟨it, hit, heq⟩ := hcov e he
  have hne : it.email ≠ "" := by
    intro h0
    rw [h0] at heq
    exact loadEmailList_ne_empty he
      ((pyLower_eq_empty_iff e).mp (heq.symm.trans (by decide)))
  have hmem : pyLower e ∈ sentEmailAddresses p := by
    rw [← heq]
    simp only [sentEmailAddresses, List.mem_filterMap]
    exact ⟨it, hit, by rw [if_neg (by simp [hne])]⟩
  simp [hmem]

theorem sendEmail_split (gw : GatewayOutcome) (f : String) (tos : List String)
    (s pt ht n : String) :
    (sendValidationsPass f tos s pt ht = false ∧
      ∃ e, sendEmail gw f tos s pt ht n = (exceptionResult e, false)) ∨
    (sendValidationsPass f tos s pt ht = true ∧
      sendEmail gw f tos s pt ht n = gatewayResult gw) := by
  by_cases h1 : validateEmail f = true
  · by_cases h2 : tos.isEmpty = true
    · exact Or.inl ⟨by simp [sendValidationsPass, h2],
        "At least one recipient email is required", by simp [sendEmail, h1, h2]⟩
    · have h2' : tos.isEmpty = false := by simpa using h2
      cases h3 : tos.find? (fun e => !(validateEmail e)) with
      | some bad =>
        have hbadv := List.find?_some h3
        have hbadmem := List.mem_of_find?_eq_some h3
        refine Or.inl ⟨?_, "Invalid recipient email: " ++ bad,
          by simp [sendEmail, h1, h2', h3]⟩
        have hall : tos.all validateEmail = false := by
          cases hall : tos.all validateEmail with
          | false => rfl
          | true =>
            have := List.all_eq_true.mp hall bad hbadmem
            rw [this] at hbadv
            simp at hbadv
        simp [sendValidationsPass, hall]
      | none =>
        have hall : tos.all validateEmail = true := by
          rw [List.all_eq_true]
          intro x hx
          have := List.find?_eq_none.mp h3 x hx
          simpa using this
        by_cases h4 : (pyStrip s == "") = true
        · exact Or.inl ⟨by simp [sendValidationsPass, h4],
            "Email subject cannot be empty", by simp [sendEmail, h1, h2', h3, h4]⟩
        · have h4' : (pyStrip s == "") = false := by simpa using h4
          by_cases h5 : (pt == "" && ht == "") = true
          · exact Or.inl ⟨by simp [sendValidationsPass, h5],
              "Either plain text or HTML content is required",
              by simp [sendEmail, h1, h2', h3, h4', h5]⟩
          · have h5' : (pt == "" && ht == "") = false := by simpa using h5
            refine Or.inr ⟨by simp [sendValidationsPass, h1, h2', hall, h4', h5'], ?_⟩
            cases gw with
            | exn msg => simp [sendEmail, gatewayResult, h1, h2', h3, h4', h5']
            | ok code => simp [sendEmail, gatewayResult, h1, h2', h3, h4', h5']
  · have h1' : validateEmail f = false := by simpa using h1
    exact Or.inl ⟨by simp [sendValidationsPass, h1'],
      "Invalid sender email: " ++ f, by simp [sendEmail, h1']⟩

/-! ## Claim theorems -/

/-- C1: every address returned by `get_unsent_emails` differs, under
case-insensitive comparison, from every address recorded in the ledger's
`sent_emails` attempts, regardless of the success flags of those
attempts. -/
theorem unsent_batch_disjoint_from_attempts :
    ∀ (rand : Nat → Nat) (limit : Nat) (decoded : List (Option (List String)))
      (p : ProgressData) (e : String),
      e ∈ getUnsentEmails rand limit decoded p →
      ∀ it ∈ ledgerRecords p, pyLower e ≠ pyLower it.email := by
  intro rand limit decoded p e he it hit heq
  simp only [getUnsentEmails] at he
  split at he
  · simp at he
  · have hu := sampleAux_subset rand _ _ _ _ he
    simp only [unsentEmails, List.mem_filter] at hu
    obtain ⟨hall, hcon⟩ := hu
    have hnomem : pyLower e ∉ sentEmailAddresses p := by simpa using hcon
    by_cases hemp : it.email = ""
    · have h0 : pyLower e = "" := by rw [heq, hemp]; decide
      exact loadEmailList_ne_empty hall ((pyLower_eq_empty_iff e).mp h0)
    · apply hnomem
      rw [heq]
      simp only [sentEmailAddresses, List.mem_filterMap]
      exact ⟨it, hit, by rw [if_neg (by simp [hemp])]⟩

/-- Witness for C1: in a concrete state with one recorded attempt, the
returned batch element is case-insensitively distinct from the recorded
address. -/
theorem unsent_batch_disjoint_from_attempts_witness :
    pyLower "b@x.com" ≠ pyLower (SentItem.email (SentItem.fromDict ⟨"a@x.com", "t", true, ""⟩)) :=
  unsent_batch_disjoint_from_attempts (fun _ => 0) 50 [some ["a@x.com", "b@x.com"]]
    ⟨some [SentItem.fromDict ⟨"a@x.com", "t", true, ""⟩], some ⟨1, some 1, some 0, none⟩⟩
    "b@x.com" (by decide) (SentItem.fromDict ⟨"a@x.com", "t", true, ""⟩) (by decide)

/-- C2 counterexample: `mark_email_sent` compares addresses exactly, not
case-insensitively: marking a case variant of an already-recorded
address appends a second record, refuting the claimed case-insensitive
append condition. -/
theorem mark_email_sent_ci_counterexample :
    ¬ (∀ (now email : String) (success : Bool) (err : String) (p : ProgressData),
        (∃ it ∈ ledgerRecords p, pyLower it.email = pyLower email) →
        ledgerRecords (markEmailSent now email success err p) = ledgerRecords p) := by
  intro h
  have h2 := h "t2" "A@x.com" false ""
    (markEmailSent "t1" "a@x.com" true "" freshProgress) (by decide)
  exact absurd h2 (by decide)

/-- C2 amended: `mark_email_sent` appends a record if and only if the
exact address string is not already among the recorded addresses, and
calling it twice with the identical address string (whatever the success
flags) leaves exactly one record for that address. -/
theorem mark_email_sent_exact_dedup :
    ∀ (t1 t2 e : String) (s1 s2 : Bool) (er1 er2 : String) (p : ProgressData),
      (ledgerRecords (markEmailSent t1 e s1 er1 p) =
        (if e ∈ (ledgerRecords p).map SentItem.email then ledgerRecords p
         else ledgerRecords p ++ [SentItem.fromDict ⟨e, t1, s1, er1⟩])) ∧
      (e ∉ (ledgerRecords p).map SentItem.email →
        (ledgerRecords (markEmailSent t2 e s2 er2 (markEmailSent t1 e s1 er1 p))).countP
          (fun it => it.email == e) = 1) := by
  intro t1 t2 e s1 s2 er1 er2 p
  refine ⟨markEmailSent_ledgerRecords t1 e s1 er1 p, ?_⟩
  intro hnot
  have h1 := markEmailSent_ledgerRecords t1 e s1 er1 p
  rw [if_neg hnot] at h1
  have hmem : e ∈ (ledgerRecords (markEmailSent t1 e s1 er1 p)).map SentItem.email := by
    rw [h1, List.map_append]
    apply List.mem_append_right
    simp [SentItem.email]
  have h2 := markEmailSent_ledgerRecords t2 e s2 er2 (markEmailSent t1 e s1 er1 p)
  rw [if_pos hmem] at h2
  rw [h2, h1, List.countP_append]
  have hz : (ledgerRecords p).countP (fun it => it.email == e) = 0 := by
    rw [List.countP_eq_zero]
    intro it hit habs
    exact hnot (List.mem_map.mpr ⟨it, hit, beq_iff_eq.mp habs⟩)
  rw [hz]
  simp [List.countP_cons, SentItem.email]

/-- Witness for C2 amended: double-marking the same exact address from a
fresh ledger leaves exactly one record for it. -/
theorem mark_email_sent_exact_dedup_witness :
    (ledgerRecords (markEmailSent "t2" "a@x.com" false "x"
      (markEmailSent "t1" "a@x.com" true "" freshProgress))).countP
      (fun it => it.email == "a@x.com") = 1 :=
  (mark_email_sent_exact_dedup "t1" "t2" "a@x.com" true false "" "x" freshProgress).2
    (by decide)

/-- C3: after any finite sequence of `mark_email_sent` calls starting
from the fresh empty ledger, `total_sent` equals the number of attempt
records and `successful + failed` equals `total_sent` (absent counters
read as 0, as `get_campaign_stats` does). -/
theorem stats_invariant_after_marks :
    ∀ (calls : List MarkCall),
      statsTotalSent (applyMarks calls freshProgress)
          = (ledgerRecords (applyMarks calls freshProgress)).length ∧
        statsSuccessful (applyMarks calls freshProgress)
            + statsFailed (applyMarks calls freshProgress)
          = statsTotalSent (applyMarks calls freshProgress) := by
  intro calls
  exact (applyMarks_invariant calls freshProgress
    (by intro it hit; simp [ledgerRecords, freshProgress] at hit)
    ⟨rfl, rfl⟩).2

/-- C4: the batch returned by `get_unsent_emails` has exactly
`min limit |unsent|` elements, all drawn from the unsent list, without
duplicates; when the unsent count is at most the limit every unsent
address is returned. -/
theorem sample_batch_spec :
    ∀ (rand : Nat → Nat) (limit : Nat) (decoded : List (Option (List String)))
      (p : ProgressData),
      (getUnsentEmails rand limit decoded p).length
          = min limit (unsentEmails decoded p).length ∧
      (∀ e ∈ getUnsentEmails rand limit decoded p, e ∈ unsentEmails decoded p) ∧
      (getUnsentEmails rand limit decoded p).Nodup ∧
      ((unsentEmails decoded p).length ≤ limit →
        ∀ e ∈ unsentEmails decoded p, e ∈ getUnsentEmails rand limit decoded p) := by
  intro rand limit decoded p
  by_cases hu : (unsentEmails decoded p).isEmpty = true
  · have h0 : unsentEmails decoded p = [] := List.isEmpty_iff.mp hu
    refine ⟨?_, ?_, ?_, ?_⟩
    · simp [getUnsentEmails, hu, h0]
    · intro e he
      simp [getUnsentEmails, hu] at he
    · simp [getUnsentEmails, hu]
    · intro _ e he
      rw [h0] at he
      simp at he
  · have hgu : getUnsentEmails rand limit decoded p
        = sampleAux rand (min limit (unsentEmails decoded p).length)
            (unsentEmails decoded p) 0 := by
      simp [getUnsentEmails, hu]
    have hlen : (getUnsentEmails rand limit decoded p).length
        = min limit (unsentEmails decoded p).length := by
      rw [hgu]
      exact sampleAux_length rand _ _ _ (Nat.min_le_right _ _)
    have hsub : ∀ e ∈ getUnsentEmails rand limit decoded p, e ∈ unsentEmails decoded p := by
      intro e he
      rw [hgu] at he
      exact sampleAux_subset rand _ _ _ _ he
    have hnd : (getUnsentEmails rand limit decoded p).Nodup := by
      rw [hgu]
      exact sampleAux_nodup rand _ _ _ (unsentEmails_nodup decoded p)
    refine ⟨hlen, hsub, hnd, ?_⟩
    intro hlim
    have hmin : min limit (unsentEmails decoded p).length
        = (unsentEmails decoded p).length := Nat.min_eq_right hlim
    exact mem_of_subset_of_length_le hsub hnd (unsentEmails_nodup decoded p)
      (le_of_eq (hlen.trans hmin).symm)

/-- Witness for C4: concrete state with one unsent address and limit 50:
the batch length is the minimum and the unsent address is a member of
the unsent list. -/
theorem sample_batch_spec_witness :
    (getUnsentEmails (fun _ => 0) 50 [some ["a@x.com", "b@x.com"]]
        ⟨some [SentItem.fromDict ⟨"a@x.com", "t", true, ""⟩],
         some ⟨1, some 1, some 0, none⟩⟩).length
      = min 50 (unsentEmails [some ["a@x.com", "b@x.com"]]
        ⟨some [SentItem.fromDict ⟨"a@x.com", "t", true, ""⟩],
         some ⟨1, some 1, some 0, none⟩⟩).length ∧
    "b@x.com" ∈ unsentEmails [some ["a@x.com", "b@x.com"]]
        ⟨some [SentItem.fromDict ⟨"a@x.com", "t", true, ""⟩],
         some ⟨1, some 1, some 0, none⟩⟩ :=
  ⟨(sample_batch_spec (fun _ => 0) 50 [some ["a@x.com", "b@x.com"]]
      ⟨some [SentItem.fromDict ⟨"a@x.com", "t", true, ""⟩],
       some ⟨1, some 1, some 0, none⟩⟩).1,
   (sample_batch_spec (fun _ => 0) 50 [some ["a@x.com", "b@x.com"]]
      ⟨some [SentItem.fromDict ⟨"a@x.com", "t", true, ""⟩],
       some ⟨1, some 1, some 0, none⟩⟩).2.1 "b@x.com" (by decide)⟩

/-- C5: for every source, `load_email_list` yields a duplicate-free
list whose every element is the lower-cased stripped form of a valid
source cell, which contains an address exactly when some valid source
cell lower-cases to it (completeness), and which equals the first-seen
deduplication of the lower-cased valid cells in source order (first
occurrence kept, order preserved); the scenario rows evaluate to
exactly their two first forms. -/
theorem load_email_list_dedup_lowercase :
    loadEmailList [some ["a@x.com", "A@X.com", "b@x.com"]] = ["a@x.com", "b@x.com"] ∧
    ∀ (decoded : List (Option (List String))),
      (loadEmailList decoded).Nodup ∧
      (∀ e ∈ loadEmailList decoded,
        ∃ cells, some cells ∈ decoded ∧
          ∃ c ∈ cells, validCell (pyStrip c) = true ∧ e = pyLower (pyStrip c)) ∧
      (∀ e : String, e ∈ loadEmailList decoded ↔
        e ∈ ((decoded.filterMap id).map extractValidEmails).flatten) ∧
      loadEmailList decoded
        = firstSeenDedup (((decoded.filterMap id).map extractValidEmails).flatten) :=
  ⟨by decide, fun decoded =>
    ⟨loadEmailList_nodup decoded, fun _ he => mem_loadEmailList he,
     fun e => mem_loadEmailList_iff decoded e,
     loadEmailList_eq_firstSeenDedup decoded⟩⟩

/-- Witness for C5: a concrete loaded address originates from a source
cell whose lower-cased stripped form it is, and conversely the
lower-cased valid cell is a member of the loaded list. -/
theorem load_email_list_dedup_lowercase_witness :
    (∃ cells, some cells ∈ [some ["A@X.com"]] ∧
      ∃ c ∈ cells, validCell (pyStrip c) = true ∧ "a@x.com" = pyLower (pyStrip c)) ∧
    "a@x.com" ∈ loadEmailList [some ["A@X.com"]] := by
  have h := load_email_list_dedup_lowercase.2 [some ["A@X.com"]]
  exact ⟨h.2.1 "a@x.com" (by decide), (h.2.2.1 "a@x.com").mpr (by decide)⟩

/-- C6 counterexample: with two encodings both parsing successfully,
`load_email_list` keeps a row decoded only under the second (later)
encoding, so it does not use only the first successful encoding. -/
theorem encoding_first_only_counterexample :
    loadEmailList [some ["a@x.com"], some ["b@y.com"]]
        ≠ specLoadFirstOnly [some ["a@x.com"], some ["b@y.com"]] ∧
      "b@y.com" ∈ loadEmailList [some ["a@x.com"], some ["b@y.com"]] ∧
      specLoadFirstOnly [some ["a@x.com"], some ["b@y.com"]] = ["a@x.com"] := by
  refine ⟨by decide, by decide, by decide⟩

/-- C6 amended: `load_email_list` tries the encodings in their fixed
order and accumulates the valid rows of every attempt that parses
successfully, deduplicating the aggregate; when every encoding fails it
returns the empty list rather than raising. -/
theorem encoding_accumulation :
    ∀ (decoded : List (Option (List String))),
      loadEmailList decoded =
        (if (((decoded.filterMap id).map extractValidEmails).flatten).isEmpty then []
         else dedupFirst (((decoded.filterMap id).map extractValidEmails).flatten)) ∧
      ((∀ d ∈ decoded, d = none) → loadEmailList decoded = []) := by
  intro decoded
  refine ⟨loadEmailList_eq_flatten decoded, ?_⟩
  intro hall
  rw [loadEmailList_eq_flatten]
  have hnil : decoded.filterMap id = [] := by
    rw [List.filterMap_eq_nil_iff]
    intro a ha
    rw [hall a ha]
    rfl
  rw [hnil]
  rfl

/-- Witness for C6 amended: when every encoding attempt fails the loader
returns the empty list. -/
theorem encoding_accumulation_witness :
    loadEmailList [none, none] = [] :=
  (encoding_accumulation [none, none]).2 (by decide)

/-- C7 counterexample: a ledger that covers every recipient but holds an
extra record makes `run_email_campaign` report "No emails to send!"
instead of the terminal complete status, because the complete check
compares plain counts. -/
theorem run_complete_counterexample :
    ¬ (∀ (rand : Nat → Nat) (batchSize : Nat) (decoded : List (Option (List String)))
        (p : ProgressData) (apiKeyPresent : Bool),
        (∀ e ∈ loadEmailList decoded,
          ∃ it ∈ ledgerRecords p, pyLower it.email = pyLower e) →
        runEmailCampaign rand batchSize decoded p apiKeyPresent = RunReport.complete) := by
  intro h
  have h2 := h (fun _ => 0) 5000 [some ["a@x.com"]]
    ⟨some [SentItem.fromDict ⟨"a@x.com", "t", true, ""⟩,
           SentItem.fromDict ⟨"c@z.com", "t", true, ""⟩],
     some ⟨2, some 2, some 0, none⟩⟩ true (by decide)
  exact absurd h2 (by decide)

/-- C7 amended: whenever every recipient-list address already has an
attempt record, `run_email_campaign` performs zero gateway calls; it
reports the terminal complete status exactly when, additionally, the
number of ledger records equals the number of loaded recipients, and
with unequal counts it reports the noEmails status instead. -/
theorem run_covered_zero_sends :
    ∀ (rand : Nat → Nat) (batchSize : Nat) (decoded : List (Option (List String)))
      (p : ProgressData) (apiKeyPresent : Bool),
      (∀ e ∈ loadEmailList decoded,
        ∃ it ∈ ledgerRecords p, pyLower it.email = pyLower e) →
      reportGatewayCalls (runEmailCampaign rand batchSize decoded p apiKeyPresent) = 0 ∧
      ((ledgerRecords p).length = (loadEmailList decoded).length →
        runEmailCampaign rand batchSize decoded p apiKeyPresent = RunReport.complete) ∧
      ((ledgerRecords p).length ≠ (loadEmailList decoded).length →
        runEmailCampaign rand batchSize decoded p apiKeyPresent = RunReport.noEmails) ∧
      (runEmailCampaign rand batchSize decoded p apiKeyPresent = RunReport.complete ↔
        (ledgerRecords p).length = (loadEmailList decoded).length) := by
  intro rand bs decoded p key hcov
  have hunsent := unsent_nil_of_covered hcov
  have htargets : getUnsentEmails rand bs decoded p = [] := by
    simp [getUnsentEmails, hunsent]
  by_cases hlen : (ledgerRecords p).length = (loadEmailList decoded).length
  · have hlen' : (p.sent_emails.getD [] : List SentItem).length
        = (loadEmailList decoded).length := hlen
    have h0 : ((((loadEmailList decoded).length : Int)
        - (((p.sent_emails.getD [] : List SentItem).length : Int))) == 0) = true := by
      rw [beq_iff_eq]
      omega
    have hcomplete : runEmailCampaign rand bs decoded p key = RunReport.complete := by
      simp [runEmailCampaign, htargets, h0]
    exact ⟨by rw [hcomplete]; rfl, fun _ => hcomplete, fun hne => absurd hlen hne,
      fun _ => hlen, fun _ => hcomplete⟩
  · have hlen' : ¬((p.sent_emails.getD [] : List SentItem).length
        = (loadEmailList decoded).length) := hlen
    have h0 : ((((loadEmailList decoded).length : Int)
        - (((p.sent_emails.getD [] : List SentItem).length : Int))) == 0) = false := by
      rw [beq_eq_false_iff_ne]
      intro hz
      apply hlen'
      omega
    have hnoem : runEmailCampaign rand bs decoded p key = RunReport.noEmails := by
      simp [runEmailCampaign, htargets, h0]
    refine ⟨by rw [hnoem]; rfl, fun heq => absurd heq hlen, fun _ => hnoem, ?_, ?_⟩
    · intro hc
      rw [hnoem] at hc
      exact absurd hc (by decide)
    · intro heq
      exact absurd heq hlen

/-- Witness for C7 amended: a concrete fully-covered state with matching
counts yields the complete report and zero gateway calls, and a covered
state with one extra record yields the noEmails report. -/
theorem run_covered_zero_sends_witness :
    (reportGatewayCalls (runEmailCampaign (fun _ => 0) 5000 [some ["a@x.com"]]
        ⟨some [SentItem.fromDict ⟨"a@x.com", "t", true, ""⟩],
         some ⟨1, some 1, some 0, none⟩⟩ true) = 0 ∧
      runEmailCampaign (fun _ => 0) 5000 [some ["a@x.com"]]
        ⟨some [SentItem.fromDict ⟨"a@x.com", "t", true, ""⟩],
         some ⟨1, some 1, some 0, none⟩⟩ true = RunReport.complete) ∧
      runEmailCampaign (fun _ => 0) 5000 [some ["a@x.com"]]
        ⟨some [SentItem.fromDict ⟨"a@x.com", "t", true, ""⟩,
               SentItem.fromDict ⟨"b@q.com", "t", false, ""⟩],
         some ⟨2, some 1, some 1, none⟩⟩ true = RunReport.noEmails := by
  have h1 := run_covered_zero_sends (fun _ => 0) 5000 [some ["a@x.com"]]
    ⟨some [SentItem.fromDict ⟨"a@x.com", "t", true, ""⟩],
     some ⟨1, some 1, some 0, none⟩⟩ true (by decide)
  have h2 := run_covered_zero_sends (fun _ => 0) 5000 [some ["a@x.com"]]
    ⟨some [SentItem.fromDict ⟨"a@x.com", "t", true, ""⟩,
           SentItem.fromDict ⟨"b@q.com", "t", false, ""⟩],
     some ⟨2, some 1, some 1, none⟩⟩ true (by decide)
  exact ⟨⟨h1.1, h1.2.1 (by decide)⟩, h2.2.2.1 (by decide)⟩

/-- C8: `load_progress` is total: an absent or corrupt persisted state
yields the fresh empty ledger (no records, `total_sent` 0), and a
successfully parsed state is returned as-is, so every read outcome
produces a ledger value rather than an exception. -/
theorem load_progress_total :
    loadProgress ReadOutcome.absent = freshProgress ∧
    loadProgress ReadOutcome.corrupt = freshProgress ∧
    ledgerRecords freshProgress = [] ∧
    statsTotalSent freshProgress = 0 ∧
    ∀ d, loadProgress (ReadOutcome.ok d) = d :=
  ⟨rfl, rfl, rfl, rfl, fun _ => rfl⟩

/-- C9: an invalid sender address, an empty recipient list, an invalid
recipient, or a whitespace-only subject makes `send_email` return a
failure result without invoking the gateway. -/
theorem send_email_local_validation :
    ∀ (gw : GatewayOutcome) (fromEmail : String) (toEmails : List String)
      (subject plainText htmlContent senderName : String),
      (validateEmail fromEmail = false ∨ toEmails = [] ∨
        (∃ e ∈ toEmails, validateEmail e = false) ∨ pyStrip subject = "") →
      (sendEmail gw fromEmail toEmails subject plainText htmlContent senderName).1.success
          = false ∧
        (sendEmail gw fromEmail toEmails subject plainText htmlContent senderName).2
          = false := by
  intro gw f tos s pt ht n hbad
  rcases sendEmail_split gw f tos s pt ht n with ⟨_, e, heq⟩ | ⟨hv, _⟩
  · rw [heq]
    exact ⟨rfl, rfl⟩
  · exfalso
    simp only [sendValidationsPass, Bool.and_eq_true] at hv
    obtain ⟨⟨⟨⟨hf, hne⟩, hall⟩, hs⟩, _⟩ := hv
    rcases hbad with h | h | h | h
    · rw [h] at hf
      exact Bool.false_ne_true hf
    · rw [h] at hne
      simp at hne
    · obtain ⟨e, he, hev⟩ := h
      have hv2 := List.all_eq_true.mp hall e he
      rw [hev] at hv2
      exact Bool.false_ne_true hv2
    · rw [h] at hs
      simp at hs

/-- Witness for C9: a syntactically invalid sender yields a failure with
no gateway invocation. -/
theorem send_email_local_validation_witness :
    (sendEmail (GatewayOutcome.ok 200) "bad" ["b@y.com"] "hi" "x" "" "").1.success = false ∧
    (sendEmail (GatewayOutcome.ok 200) "bad" ["b@y.com"] "hi" "x" "" "").2 = false :=
  send_email_local_validation (GatewayOutcome.ok 200) "bad" ["b@y.com"] "hi" "x" ""
    "" (Or.inl (by decide))

/-- C10: `send_email` maps every gateway exception to a failure result
carrying an error string (it never propagates the exception), and it
succeeds exactly when the validations pass and the provider status code
is 200, 201 or 202. -/
theorem send_email_success_iff_status :
    ∀ (fromEmail : String) (toEmails : List String)
      (subject plainText htmlContent senderName : String),
      (∀ msg,
        (sendEmail (GatewayOutcome.exn msg) fromEmail toEmails subject plainText
            htmlContent senderName).1.success = false ∧
        ((sendEmail (GatewayOutcome.exn msg) fromEmail toEmails subject plainText
            htmlContent senderName).1.error).isSome = true) ∧
      (∀ code : Nat,
        ((sendEmail (GatewayOutcome.ok code) fromEmail toEmails subject plainText
            htmlContent senderName).1.success = true ↔
          (sendValidationsPass fromEmail toEmails subject plainText htmlContent = true ∧
            (code = 200 ∨ code = 201 ∨ code = 202)))) := by
  intro f tos s pt ht n
  constructor
  · intro msg
    rcases sendEmail_split (GatewayOutcome.exn msg) f tos s pt ht n with
      ⟨_, e, heq⟩ | ⟨_, heq⟩
    · rw [heq]
      exact ⟨rfl, rfl⟩
    · rw [heq]
      exact ⟨rfl, rfl⟩
  · intro code
    rcases sendEmail_split (GatewayOutcome.ok code) f tos s pt ht n with
      ⟨hv, e, heq⟩ | ⟨hv, heq⟩
    · rw [heq]
      constructor
      · intro h
        exact absurd h (by simp [exceptionResult])
      · rintro ⟨hpass, _⟩
        rw [hv] at hpass
        exact absurd hpass Bool.false_ne_true
    · rw [heq]
      simp only [gatewayResult]
      by_cases hc : (code == 200 || code == 201 || code == 202) = true
      · rw [if_pos hc]
        have hor : code = 200 ∨ code = 201 ∨ code = 202 := by
          have h6 := hc
          simp only [Bool.or_eq_true, beq_iff_eq] at h6
          tauto
        constructor
        · intro _
          exact ⟨hv, hor⟩
        · intro _
          rfl
      · rw [if_neg hc]
        constructor
        · intro h
          exact absurd h (by simp)
        · rintro ⟨_, hor⟩
          exfalso
          apply hc
          rcases hor with h | h | h <;> simp [h]

/-- Witness for C10: a valid message sent through a gateway answering
status 200 succeeds. -/
theorem send_email_success_iff_status_witness :
    (sendEmail (GatewayOutcome.ok 200) "a@x.com" ["b@y.com"] "hi" "x" "" "").1.success
      = true := by
  have h := (send_email_success_iff_status "a@x.com" ["b@y.com"] "hi" "x" "" "").2 200
  exact h.mpr ⟨by decide, Or.inl rfl⟩

end VSendGrid
